import Mathlib

/-!
# A verification development for the django-eavl-core EAVL engine

This file gives a shallow embedding, in Lean 4, of the core data model and
operations of the `django-eavl-core` repository (the `datacore` application:
`schemas.py`, `attributes.py`, `entity.py`, `models.py`, together with the
value-model `save` of `eavl-core/models/values.py` and the uniqueness check of
`datacore/models/factory.py`), and proves or refutes the specification claims
about them.

Modelling conventions:
* Database rows are records in Lean lists; a `State` bundles the tables.
* JSON payloads are a small inductive `JValue`; timestamps are natural
  numbers, with the current time (`datetime.now()`) passed explicitly.
* A raised Python exception is modelled as `(current state, some err)`:
  mutations already persisted when the exception is raised are kept in the
  returned state, mirroring the absence of a transaction wrapper.
* Pure Python name slips that have an unambiguous intent are glossed where
  they occur (each is noted in a comment at the definition): e.g.
  `models.model_to_dict` (the field-copy helper lives in `django.forms`),
  `a.sourse` for `a.entity` in `get_incoming_links`, and set concatenation
  written `added + removed + updated`.  All control flow, filters and field
  updates follow the source exactly.
-/

/-- JSON-shaped payloads stored in `Value.value` and in schema documents. -/
inductive JValue where
  | null : JValue
  | bool (b : Bool) : JValue
  | num (n : Int) : JValue
  | str (s : String) : JValue
  | arr (items : List JValue) : JValue
  | obj (fields : List (String × JValue)) : JValue

mutual

/-- Structural equality of JSON values (Python `==` on decoded JSON). -/
def JValue.beq : JValue → JValue → Bool
  | .null, .null => true
  | .bool a, .bool b => a == b
  | .num a, .num b => a == b
  | .str a, .str b => a == b
  | .arr a, .arr b => JValue.beqList a b
  | .obj a, .obj b => JValue.beqFields a b
  | _, _ => false

/-- Equality of JSON arrays, elementwise. -/
def JValue.beqList : List JValue → List JValue → Bool
  | [], [] => true
  | x :: xs, y :: ys => JValue.beq x y && JValue.beqList xs ys
  | _, _ => false

/-- Equality of JSON objects, as ordered field lists. -/
def JValue.beqFields : List (String × JValue) → List (String × JValue) → Bool
  | [], [] => true
  | (k, x) :: xs, (l, y) :: ys => k == l && JValue.beq x y && JValue.beqFields xs ys
  | _, _ => false

end

instance : BEq JValue := ⟨JValue.beq⟩

mutual

theorem JValue.beq_refl : (v : JValue) → JValue.beq v v = true
  | .null => rfl
  | .bool b => by simp [JValue.beq]
  | .num n => by simp [JValue.beq]
  | .str s => by simp [JValue.beq]
  | .arr items => by simp [JValue.beq, JValue.beqList_refl items]
  | .obj fields => by simp [JValue.beq, JValue.beqFields_refl fields]

theorem JValue.beqList_refl : (l : List JValue) → JValue.beqList l l = true
  | [] => rfl
  | x :: xs => by simp [JValue.beqList, JValue.beq_refl x, JValue.beqList_refl xs]

theorem JValue.beqFields_refl : (l : List (String × JValue)) → JValue.beqFields l l = true
  | [] => rfl
  | (k, x) :: xs => by simp [JValue.beqFields, JValue.beq_refl x, JValue.beqFields_refl xs]

end

namespace JValue

/-- Lookup of a key in a JSON object (Python `dict.get(key, None)`). -/
def get : JValue → String → Option JValue
  | .obj fields, k => (fields.find? (fun p => p.1 == k)).map Prod.snd
  | _, _ => none

/-- Python truthiness of a JSON value (`if default:`). -/
def truthy : JValue → Bool
  | .null => false
  | .bool b => b
  | .num n => n != 0
  | .str s => s != ""
  | .arr items => !items.isEmpty
  | .obj fields => !fields.isEmpty

end JValue

/-- A row of the (dynamically generated) entity table:
`AbstractEntityModel` in `datacore/models/entity.py`. -/
structure Entity where
  pk : Nat
  uuid : Nat
  /-- Foreign key to the entity-class row. -/
  entity_class : Nat
  title : String
deriving DecidableEq

/-- A row of the entity-class table: `AbstractEntityClassModel` in
`datacore/models/models.py`.  `schemaPks` is the `schemas` many-to-many set. -/
structure EClass where
  pk : Nat
  uuid : Nat
  title : String
  schemaPks : List Nat
deriving DecidableEq

/-- A row of the schema table: `SchemaModel` in `datacore/models/schemas.py`.
The source stores `version` as the string `"major.minor"` and parses it with
`map(int, version.split('.'))`; we keep the two parsed components.
`pk = none` models an unsaved instance (`self.pk` falsy). -/
structure SchemaRow where
  pk : Option Nat
  title : String
  name : String
  versionMajor : Nat
  versionMinor : Nat
  field_type : Nat
  is_multiple : Bool
  /-- The generated JSON `schema` document. -/
  schema : JValue

/-- A row of the attribute table: `AbstractAttributeModel` in
`datacore/models/attributes.py`. -/
structure Attrib where
  pk : Nat
  /-- Foreign key to the owning entity. -/
  entity : Nat
  title : String
  code : String
  /-- Foreign key to the schema row. -/
  schemaPk : Nat
  is_multiple : Bool
  is_relation : Bool
  /-- Foreign key to the link target (nullable). -/
  destination : Option Nat
  is_timeseries : Bool
  deleted : Bool
deriving DecidableEq

/-- A row of the value table.  `datacore/models/values.py` is absent from the
sources; the fields are those required by its uses in `attributes.py` and
`entity.py` (`entity`, `attribute`, `value`, `timestamp`, `deleted`), matching
`AbstractValueModel` of `eavl-core/models/values.py` plus the `deleted` flag
filtered on in `AbstractAttributeModel.set_value`. -/
structure ValueRow where
  pk : Nat
  entity : Nat
  attribute_id : Nat
  value : JValue
  /-- Timestamps (`datetime`) are modelled as integers, ordered as dates are. -/
  timestamp : Int
  deleted : Bool

/-- The database: one list per table. -/
structure State where
  classes : List EClass
  entities : List Entity
  attrs : List Attrib
  values : List ValueRow
  schemas : List SchemaRow

/-- Errors corresponding to the exceptions the engine can raise. -/
inductive Err where
  /-- The `Exception("Cannot delete entity with incoming links.")` raise. -/
  | hasIncomingLinks
  /-- The `AttributeError` from `AbstractAttributeModel.save` when a relation
  attribute has no destination. -/
  | destinationRequired
  /-- An `IntegrityError`: `save(force_insert=True)` with an existing primary key. -/
  | pkConflict
  /-- Django `ValueError`: `save(force_update=True)` on an unsaved instance. -/
  | forcedUpdateNoRow
  /-- A `TypeError` or `ValueError` from malformed time-series input. -/
  | typeError
  /-- Uniqueness violation (`NotUnique` of the spec taxonomy). -/
  | notUnique
  /-- The `ValueError` for an unknown field type in `SchemaModel.save`. -/
  | unknownFieldType
  /-- A `ValidationError` from `full_clean`. -/
  | validationFailed
  /-- An `AttributeError` from resolving a name that does not exist:
  `models.model_to_dict` (absent from `django.db.models`), `a.sourse` (the
  reverse accessor lives on the entity model, not the attribute row), and
  `self.attribute.unique_set` / `FIELD_TYPES.relationship` (no such field /
  `Choices` member) each raise this before any write. -/
  | attributeError
  /-- Recursion budget of the embedding exhausted (`destroy_wrap` has no
  cycle guard; the fuel makes the embedding total). -/
  | outOfFuel
deriving DecidableEq

/-- A fresh primary key for a value row. -/
def freshValuePk (rows : List ValueRow) : Nat :=
  rows.foldl (fun m r => max m r.pk) 0 + 1

/-- A fresh primary key for an attribute row. -/
def freshAttrPk (rows : List Attrib) : Nat :=
  rows.foldl (fun m r => max m r.pk) 0 + 1

/-- A fresh primary key for a schema row. -/
def freshSchemaPk (rows : List SchemaRow) : Nat :=
  rows.foldl (fun m r => max m (r.pk.getD 0)) 0 + 1

/-- Insertion step for sorting value rows by descending timestamp
(`order_by("-timestamp")`; ties keep table order, which the database leaves
unspecified). -/
def insertByTsDesc (v : ValueRow) : List ValueRow → List ValueRow
  | [] => [v]
  | w :: l => if v.timestamp ≥ w.timestamp then v :: w :: l
              else w :: insertByTsDesc v l

/-- Sorting `order_by("-timestamp")` on a list of value rows. -/
def sortByTsDesc (l : List ValueRow) : List ValueRow :=
  l.foldr insertByTsDesc []

/-- Insertion step for sorting attributes by title (`Meta.ordering = ["title"]`). -/
def insertByTitle (a : Attrib) : List Attrib → List Attrib
  | [] => [a]
  | b :: l => if a.title ≤ b.title then a :: b :: l
              else b :: insertByTitle a l

/-- Attribute querysets are ordered by `title` (`Meta.ordering`). -/
def sortByTitle (l : List Attrib) : List Attrib :=
  l.foldr insertByTitle []

namespace ValueModel

/-- Embedding of `AbstractValueModel.save` (`eavl-core/models/values.py`, lines 65-70):
`force_insert` is set to `attribute.is_timeseries`, `force_update` to its
negation, and then Django's `Model.save` runs.  With `force_insert=True` an
`INSERT` is issued, which conflicts when the instance's primary key already
exists; with `force_update=True` an `UPDATE` is issued, which Django rejects
with `ValueError` when the instance has no persisted primary key. -/
def save (st : State) (v : ValueRow) : State × Option Err :=
  let is_ts := ((st.attrs.find? (fun a => a.pk == v.attribute_id)).map
    (fun a => a.is_timeseries)).getD false
  if is_ts then
    if st.values.any (fun r => r.pk == v.pk) then (st, some .pkConflict)
    else ({st with values := st.values ++ [v]}, none)
  else
    if st.values.any (fun r => r.pk == v.pk) then
      ({st with values := st.values.map (fun r => if r.pk == v.pk then v else r)}, none)
    else (st, some .forcedUpdateNoRow)

end ValueModel

namespace AttributeModel

/-- Embedding of `AbstractAttributeModel.get_value` (`datacore/models/attributes.py`,
lines 121-175).  Returns the dictionary `{self.code: payload}` exactly as the
source builds it (note the attribute code is a key of the *returned* dict).
`timestamp.isoformat()` is modelled as the numeric timestamp itself. -/
def get_value (st : State) (a : Attrib) (last_only : Bool)
    (from_date to_date : Option Int) : JValue :=
  let values_qs := sortByTsDesc (st.values.filter
    (fun v => v.attribute_id == a.pk && v.entity == a.entity))
  if a.is_timeseries then
    if !last_only then
      let values_qs :=
        if from_date.isNone && to_date.isNone then values_qs
        else values_qs.filter (fun v =>
          (match from_date with | some f => decide (f ≤ v.timestamp) | none => true) &&
          (match to_date with | some t => decide (v.timestamp ≤ t) | none => true))
      .obj [(a.code, .arr (values_qs.map (fun v =>
        .obj [("value", v.value), ("timestamp", .num v.timestamp)])))]
    else
      match values_qs.head? with
      | some v => .obj [(a.code, .obj [("value", v.value), ("timestamp", .num v.timestamp)])]
      | none => .obj [(a.code, .null)]
  else if a.is_multiple then
    if last_only then
      .obj [(a.code, (values_qs.head?.map (fun v => v.value)).getD .null)]
    else
      .obj [(a.code, .arr (values_qs.map (fun v => v.value)))]
  else
    .obj [(a.code, (values_qs.head?.map (fun v => v.value)).getD .null)]

/-- Decoding of one item of a time-series bulk list (`val, ts = item` followed
by `if ts and ts < datetime.now()`).  An item that is not a two-element
sequence fails to unpack, and a non-null timestamp that is not a datetime
fails the `<` comparison; both raise (`typeError`).  A null timestamp is falsy
and merely skips the item, so it decodes to `none`. -/
def decodeItem : JValue → Except Err (JValue × Option Int)
  | .arr [v, .num n] => .ok (v, some n)
  | .arr [v, .null] => .ok (v, none)
  | _ => .error .typeError

/-- Decode a whole bulk list, failing at the first malformed item, exactly
as the `for item in value:` loop does (earlier items were only collected in
the in-memory `objs` list, which the exception discards). -/
def decodeItems : List JValue → Except Err (List (JValue × Option Int))
  | [] => .ok []
  | item :: rest =>
    match decodeItem item with
    | .error e => .error e
    | .ok p =>
      match decodeItems rest with
      | .error e => .error e
      | .ok ps => .ok (p :: ps)

/-- Rows built by the bulk branch of `set_value`
(`value=val if val is not None else default`; `bulk_create` assigns fresh
primary keys; the timestamps were checked non-null by the filter). -/
def mkBulkRows (basePk : Nat) (a : Attrib) (default : Option JValue) :
    List (JValue × Option Int) → List ValueRow
  | [] => []
  | (v, ts) :: rest =>
    { pk := basePk, entity := a.entity, attribute_id := a.pk,
      value := match v with | .null => default.getD .null | w => w,
      timestamp := ts.getD 0, deleted := false } :: mkBulkRows (basePk + 1) a default rest

/-- The attribute's schema row default: `self.schema.get_defaults()`
(`SchemaModel.get_defaults`, `schemas.py` lines 151-154, is
`self.schema.get("default", None)` on the generated JSON document;
`self.schema` here is the attribute's schema foreign key). -/
def schemaDefault (st : State) (a : Attrib) : Option JValue :=
  (st.schemas.find? (fun s => s.pk == some a.schemaPk)).bind
    (fun s => s.schema.get "default")

/-- The entries the bulk loop keeps: `if ts and ts < datetime.now()` — a
non-null timestamp strictly before now. -/
def bulkKept (pairs : List (JValue × Option Int)) (now : Int) :
    List (JValue × Option Int) :=
  pairs.filter (fun p => match p.2 with | some n => decide (n < now) | none => false)

/-- The tail of `set_value` (`# Single value or multiple (last_only)`):
take the first row of the queryset, overwrite its `value` and save it, or
build an unsaved instance (`timestamp` gets `auto_now_add`) and save that. -/
def scalarSave (st : State) (a : Attrib) (value : JValue) (now : Int) :
    State × Option Err :=
  let values_qs := sortByTsDesc (st.values.filter
    (fun v => v.entity == a.entity && !v.deleted))
  match values_qs.head? with
  | some obj => ValueModel.save st {obj with value := value}
  | none => ValueModel.save st
      { pk := freshValuePk st.values, entity := a.entity, attribute_id := a.pk,
        value := value, timestamp := now, deleted := false }

/-- Embedding of `AbstractAttributeModel.set_value` (`datacore/models/attributes.py`,
lines 181-225).  Note that the queryset filters on the entity only (not on
the attribute), that the bulk branch requires `self.is_timeseries` *and* a
list value, and that when every bulk entry is filtered out (`objs` empty) the
code falls through to the single-value branch with the original list. -/
def set_value (st : State) (a : Attrib) (value : JValue) (now : Int) :
    State × Option Err :=
  match a.is_timeseries, value with
  | true, .arr items =>
    (match decodeItems items with
     | .error e => (st, some e)
     | .ok pairs =>
       let objs := mkBulkRows (freshValuePk st.values) a (schemaDefault st a)
         (bulkKept pairs now)
       if !objs.isEmpty then ({st with values := st.values ++ objs}, none)
       else scalarSave st a value now)
  | _, _ => scalarSave st a value now

/-- Embedding of `AbstractAttributeModel.save` (lines 232-238): relation attributes must
carry a destination, otherwise `AttributeError` is raised before the write. -/
def save (st : State) (a : Attrib) : State × Option Err :=
  if a.is_relation && a.destination == none then (st, some .destinationRequired)
  else if st.attrs.any (fun b => b.pk == a.pk) then
    ({st with attrs := st.attrs.map (fun b => if b.pk == a.pk then a else b)}, none)
  else ({st with attrs := st.attrs ++ [a]}, none)

/-- Embedding of `AbstractAttributeModel.delete` (lines 227-230): soft delete via `save`. -/
def delete (st : State) (a : Attrib) : State × Option Err :=
  save st {a with deleted := true}

end AttributeModel

/-- The document produced by `get_data`:
`{"type": ..., "uuid": ..., "attributes": {...}}`.  The `type` key holds
`str(getattr(self.entity_class, "uuid", self.entity_class))`, modelled as the
class row's `uuid` (falling back to the raw foreign key). -/
structure Doc where
  typeId : Nat
  uuid : Nat
  attributes : List (String × JValue)

/-- Python `dict` update with a single key (`d.update({k: v})`). -/
def dictUpsert (d : List (String × JValue)) (k : String) (v : JValue) :
    List (String × JValue) :=
  if d.any (fun p => p.1 == k) then d.map (fun p => if p.1 == k then (k, v) else p)
  else d ++ [(k, v)]

namespace EntityModel

/-- Embedding of `AbstractEntityModel.get_data` (`datacore/models/entity.py`, lines 52-82).
For each non-deleted attribute the *whole* dictionary returned by
`get_value` (which is `{code: payload}`) is stored under the attribute code,
exactly as `data["attributes"].update({attr.code: attr.get_value(...)})`
does. -/
def get_data (st : State) (e : Entity) (last_only : Bool)
    (from_date to_date : Option Int) : Doc :=
  let attributes := sortByTitle (st.attrs.filter
    (fun a => a.entity == e.pk && !a.deleted))
  { typeId := ((st.classes.find? (fun c => c.pk == e.entity_class)).map
      (fun c => c.uuid)).getD e.entity_class,
    uuid := e.uuid,
    attributes := attributes.foldl (fun d a =>
      dictUpsert d a.code (AttributeModel.get_value st a last_only from_date to_date)) [] }

/-- Embedding of `AbstractEntityModel.set_data` (`datacore/models/entity.py`, lines
118-134), mutation body (the `validate=False` path; the `validate=True`
branch delegates to the external marshmallow library before reaching this
body, and the claims below concern the write path).  Each pair of the
document's `attributes` dict is applied through `set_value` on the first
matching non-deleted attribute; a raised exception aborts the loop. -/
def set_data (st : State) (e : Entity) (doc : Doc) (now : Int) :
    State × Option Err :=
  doc.attributes.foldl (fun acc kv =>
    match acc with
    | (st', some err) => (st', some err)
    | (st', none) =>
      match (sortByTitle (st'.attrs.filter
          (fun a => a.entity == e.pk && a.code == kv.1 && !a.deleted))).head? with
      | some a => AttributeModel.set_value st' a kv.2 now
      | none => (st', none)) (st, none)

/-- Embedding of `AbstractEntityModel.get_outgoing_links` (lines 222-226): destination ids
of the entity's non-deleted relation attributes (`values_list("destination")`
keeps nulls). -/
def get_outgoing_links (st : State) (e : Nat) : List (Option Nat) :=
  (sortByTitle (st.attrs.filter
    (fun a => a.entity == e && a.is_relation && !a.deleted))).map
    (fun a => a.destination)

/-- Embedding of `AbstractEntityModel.get_incoming_links` (lines 228-232):
`list([a.sourse for a in queryset])` over the non-deleted relation
attributes pointing at `e`.  `sourse` is the reverse accessor that the
`destination` foreign key's `related_name` installs on the *entity* model;
an attribute row has no such attribute, so the comprehension raises
`AttributeError` at its first element whenever the queryset is non-empty.
Only an empty queryset yields a (necessarily empty) list. -/
def get_incoming_links (st : State) (e : Nat) : Except Err (List Nat) :=
  let queryset := sortByTitle (st.attrs.filter
    (fun a => a.is_relation && a.destination == some e && !a.deleted))
  if queryset.isEmpty then .ok [] else .error .attributeError

/-- Django's `Model.delete` on an entity row, with the foreign-key cascades
declared in `models.py` (`on_delete=CASCADE` on `Attribute.entity`,
`Attribute.destination`, `Value.entity` and `Value.attribute`). -/
def entityDelete (st : State) (e : Nat) : State :=
  let deadAttrs := st.attrs.filter (fun a => a.entity == e || a.destination == some e)
  { st with
    entities := st.entities.filter (fun x => x.pk != e),
    attrs := st.attrs.filter (fun a => !(a.entity == e || a.destination == some e)),
    values := st.values.filter (fun v =>
      !(v.entity == e || deadAttrs.any (fun a => a.pk == v.attribute_id))) }

/-- The `for attr in attrs:` loop of `destroy_wrap` over the incoming
relation attributes: delete the attribute's values (a queryset delete, which
bypasses the model `delete`), clear `destination`, and call the soft
`delete()`, whose `save()` re-checks the relation/destination guard. -/
def processIncoming : State → List Attrib → State × Option Err
  | st, [] => (st, none)
  | st, a :: rest =>
    let st1 := { st with values := st.values.filter (fun v => !(v.attribute_id == a.pk)) }
    match AttributeModel.delete st1 { a with destination := none } with
    | (st2, none) => processIncoming st2 rest
    | (st2, some err) => (st2, some err)

/-- The `for dest in self.get_outgoing_links():` loop of `destroy_wrap`:
recursively destroy each non-null destination with `force=True`; a raised
exception aborts the loop. -/
def destroyList (f : State → Nat → State × Option Err) :
    State → List (Option Nat) → State × Option Err
  | st, [] => (st, none)
  | st, none :: rest => destroyList f st rest
  | st, some d :: rest =>
    match f st d with
    | (st', none) => destroyList f st' rest
    | (st', some err) => (st', some err)

/-- The tail of `destroy_wrap` after the incoming-links block: delete the
values of all own attributes, recursively destroy the outgoing link targets,
then hard-delete the entity row. -/
def afterIncoming (f : State → Nat → State × Option Err) (st : State) (e : Nat) :
    State × Option Err :=
  let own := st.attrs.filter (fun a => a.entity == e)
  let st1 := { st with
    values := st.values.filter (fun v => !(own.any (fun a => a.pk == v.attribute_id))) }
  match destroyList f st1 (get_outgoing_links st1 e) with
  | (st2, some err) => (st2, some err)
  | (st2, none) => (entityDelete st2 e, none)

/-- Embedding of `AbstractEntityModel.destroy_wrap` (`datacore/models/entity.py`, lines
184-218).  The `AttributeError` of `get_incoming_links` propagates, so the
`if incoming:` block — the `HasIncomingLinks` raise included — is reachable
only with an empty incoming list, i.e. never; its body is kept to mirror the
source.  The recursion has no cycle guard, so the embedding carries an
explicit fuel; exhausting it returns `outOfFuel` (a divergence the Python
would exhibit as unbounded recursion). -/
def destroy_wrap : Nat → State → Nat → Bool → State × Option Err
  | 0, st, _, _ => (st, some .outOfFuel)
  | fuel + 1, st, e, force =>
    match get_incoming_links st e with
    | .error err => (st, some err)
    | .ok incoming =>
      if !incoming.isEmpty then
        if !force then (st, some .hasIncomingLinks)
        else
          let attrs := sortByTitle (st.attrs.filter
            (fun a => a.is_relation && a.destination == some e && !a.deleted))
          match processIncoming st attrs with
          | (st', some err) => (st', some err)
          | (st', none) => afterIncoming (fun s d => destroy_wrap fuel s d true) st' e
      else afterIncoming (fun s d => destroy_wrap fuel s d true) st e

end EntityModel

namespace MarshmallowField

/-- Embedding of `MarshmallowField.get_field_name` (`datacore/models/schemas.py`, lines
64-68): the lower-cased class name of the marshmallow field registered under
the integer code (`mf.Int` is an alias of `Integer`, `mf.URL` of `Url`).
Unregistered codes give `none`. -/
def get_field_name : Nat → Option String
  | 2 => some "boolean"
  | 4 => some "date"
  | 5 => some "datetime"
  | 6 => some "decimal"
  | 7 => some "dict"
  | 8 => some "email"
  | 9 => some "enum"
  | 10 => some "float"
  | 12 => some "integer"
  | 13 => some "integer"
  | 14 => some "ip"
  | 15 => some "ipinterface"
  | 17 => some "mapping"
  | 21 => some "string"
  | 22 => some "time"
  | 23 => some "timedelta"
  | 25 => some "url"
  | 26 => some "uuid"
  | _ => none

end MarshmallowField

/-- Insertion step for sorting schema rows by name (`Meta.ordering = ["name"]`). -/
def insertByName (s : SchemaRow) : List SchemaRow → List SchemaRow
  | [] => [s]
  | t :: l => if s.name ≤ t.name then s :: t :: l else t :: insertByName s l

/-- Schema querysets are ordered by `name`. -/
def sortByName (l : List SchemaRow) : List SchemaRow :=
  l.foldr insertByName []

namespace EntityModel

/-- Embedding of `AbstractEntityModel._convert_value` (`entity.py`, lines 507-530):
best-effort cast of a stored value to the new field type; `ValueError` and
`TypeError` become `None`.  `int()`/`float()` of a container raises and so
gives null; fractional floats are outside the integer-valued model and the
claims (no claim exercises the float branch on non-integers);
`str()` of containers (a Python repr) is not exercised and is kept as-is. -/
def convert_value (value : JValue) (field_type : Nat) : JValue :=
  let type_name := MarshmallowField.get_field_name field_type
  match value with
  | .null => .null
  | v =>
    if type_name == some "integer" then
      match v with
      | .num n => .num n
      | .str s => (match s.toInt? with | some n => .num n | none => .null)
      | .bool b => .num (if b then 1 else 0)
      | _ => .null
    else if type_name == some "float" then
      match v with
      | .num n => .num n
      | .str s => (match s.toInt? with | some n => .num n | none => .null)
      | .bool b => .num (if b then 1 else 0)
      | _ => .null
    else if type_name == some "string" then
      match v with
      | .str s => .str s
      | .num n => .str (toString n)
      | .bool b => .str (if b then "True" else "False")
      | w => w
    else if type_name == some "boolean" then
      match v with
      | .str s => .bool (s.toLower == "1" || s.toLower == "true" || s.toLower == "yes")
      | .bool b => .bool b
      | .num n => .bool (n != 0)
      | w => .bool w.truthy
    else value

/-- Embedding of `AbstractEntityModel.add_attribute` (`entity.py`, lines 470-484).
`objects.create(**options)` runs the attribute `save()`; the source reads
`schema.get("many")`/`schema.get("type")`, lookups that only the generated
JSON `schema` document of the row supports, so they are read from it.  A
truthy schema default is then written through `set_value`. -/
def add_attribute (st : State) (e : Entity) (schema : SchemaRow) (now : Int) :
    State × Option Err :=
  let attrib : Attrib :=
    { pk := freshAttrPk st.attrs, entity := e.pk, title := schema.title,
      code := schema.name, schemaPk := schema.pk.getD 0,
      is_multiple := ((schema.schema.get "many").map JValue.truthy).getD false,
      is_relation := (schema.schema.get "type") == some (.str "link"),
      destination := none, is_timeseries := false, deleted := false }
  match AttributeModel.save st attrib with
  | (st1, some err) => (st1, some err)
  | (st1, none) =>
    match schema.schema.get "default" with
    | some d => if d.truthy then (AttributeModel.set_value st1 attrib d now) else (st1, none)
    | none => (st1, none)

/-- Embedding of `AbstractEntityModel.update_attribute` (`entity.py`, lines 486-505):
rebind the attribute to the new schema row, and when the field type changed,
convert every stored value in place before saving the attribute. -/
def update_attribute (st : State) (e : Entity) (schema : SchemaRow) :
    State × Option Err :=
  match (sortByTitle (st.attrs.filter
      (fun a => a.entity == e.pk && a.code == schema.name && !a.deleted))).head? with
  | none => (st, none)
  | some attrib =>
    let old_schema := st.schemas.find? (fun s => s.pk == some attrib.schemaPk)
    let attrib' := { attrib with
      schemaPk := schema.pk.getD 0, title := schema.title,
      is_multiple := schema.is_multiple,
      is_relation := (schema.schema.get "type") == some (.str "link") }
    let st1 :=
      if (old_schema.map (fun s => s.field_type)) != some schema.field_type then
        { st with values := st.values.map (fun v =>
            if v.attribute_id == attrib.pk then
              { v with value := convert_value v.value schema.field_type } else v) }
      else st
    AttributeModel.save st1 attrib'

/-- Embedding of `AbstractEntityModel.remove_attribute` (`entity.py`, lines 532-534):
a queryset `update(deleted=True)` — tombstone only, no value rows touched. -/
def remove_attribute (st : State) (e : Entity) (schema : SchemaRow) : State :=
  { st with attrs := st.attrs.map (fun a =>
      if a.entity == e.pk && a.code == schema.name && !a.deleted then
        { a with deleted := true } else a) }

end EntityModel

namespace EntityClassModel

/-- The inner loop of `make_migrations` for one entity: iterate the schemas
of the class whose name is among the affected names
(`self.schemas.filter(name__in=all_names)` — drawn from the class's *current*
schema set) and dispatch on the name sets. -/
def migrateEntity (st : State) (cls : EClass) (added removed updated : List String)
    (e : Entity) (now : Int) : State × Option Err :=
  let all_names := added ++ removed ++ updated
  let schemas := sortByName (st.schemas.filter (fun s =>
    (match s.pk with | some p => cls.schemaPks.contains p | none => false) &&
    all_names.contains s.name))
  schemas.foldl (fun acc s =>
    match acc with
    | (st', some err) => (st', some err)
    | (st', none) =>
      if added.contains s.name then EntityModel.add_attribute st' e s now
      else if updated.contains s.name then EntityModel.update_attribute st' e s
      else (EntityModel.remove_attribute st' e s, none)) (st, none)

/-- Embedding of `AbstractEntityClassModel.make_migrations` (`datacore/models/models.py`,
lines 216-233).  The name sets are concatenated as the source's
`added + removed + updated` intends (the operands are sets, `+` is the evident
concatenation/union slip, as is `list[self.entities.all()]` for `list(...)`).
A raised exception aborts the batch. -/
def make_migrations (st : State) (cls : EClass)
    (added removed updated : List String) (now : Int) : State × Option Err :=
  let entities_list := st.entities.filter (fun e => e.entity_class == cls.pk)
  entities_list.foldl (fun acc e =>
    match acc with
    | (st', some err) => (st', some err)
    | (st', none) => migrateEntity st' cls added removed updated e now) (st, none)

/-- Embedding of `AbstractEntityClassModel.diff_schemas` (`models.py`, lines 235-256):
compare two schema sets by name, with `updated` the common names whose
version changed.  The dict comprehensions let a later duplicate name win. -/
def diff_schemas (old_schemas new_schemas : List SchemaRow) :
    List String × List String × List String :=
  let lookupV := fun (l : List SchemaRow) (n : String) =>
    (l.reverse.find? (fun s => s.name == n)).map (fun s => (s.versionMajor, s.versionMinor))
  let old_names := (old_schemas.map (fun s => s.name)).dedup
  let new_names := (new_schemas.map (fun s => s.name)).dedup
  let added := new_names.filter (fun n => !old_names.contains n)
  let removed := old_names.filter (fun n => !new_names.contains n)
  let common := old_names.filter (fun n => new_names.contains n)
  let updated := common.filter (fun n => lookupV old_schemas n != lookupV new_schemas n)
  (added, removed, updated)

end EntityClassModel

namespace SchemaModel

/-- The `while True` search of `SchemaModel.get_next_version` (`schemas.py`,
lines 163-173): starting from `minor+1`, find the first minor version not
taken for this name and major version.  At most `rows.length` candidates can
be taken, so a budget of `rows.length + 1` probes always suffices; the budget
only makes the loop a Lean function and is never exhausted. -/
def next_version_loop (rows : List SchemaRow) (name : String) (major : Nat) :
    Nat → Nat → Nat
  | cand, 0 => cand
  | cand, fuel + 1 =>
    if rows.any (fun r => r.name == name && r.versionMajor == major &&
        r.versionMinor == cand) then
      next_version_loop rows name major (cand + 1) fuel
    else cand

/-- Embedding of `SchemaModel.get_next_version`: `major.(minor+1)`, skipping collisions. -/
def get_next_version (rows : List SchemaRow) (s : SchemaRow) : Nat × Nat :=
  (s.versionMajor,
   next_version_loop rows s.name s.versionMajor (s.versionMinor + 1) (rows.length + 1))

/-- Embedding of `SchemaModel.clone` (`schemas.py`, lines 187-200).  Its
first statement is `fields = models.model_to_dict(self, exclude=['id'])`
with `models` bound by `from django.db import models`; `django.db.models`
exports no `model_to_dict` (the field-copy helper lives in
`django.forms.models`), so the method raises `AttributeError` before reading
the version, before `get_next_version`, and before creating any row. -/
def clone (st : State) (s : SchemaRow) : State × Option Err :=
  (st, some .attributeError)

/-- The slug test of `SchemaModel.clean`:
`self.name.replace('-', '').replace('_', '').isalnum()`. -/
def slug_ok (name : String) : Bool :=
  let t := name.toList.filter (fun c => c != '-' && c != '_')
  !t.isEmpty && t.all (fun c => c.isAlphanum)

/-- Embedding of `SchemaModel.save` (`schemas.py`, lines 202-234): regenerate the JSON
schema document from the field type (unknown codes raise `ValueError`), then
either redirect to `clone` — when the instance is persisted and referenced by
at least one entity class — whose `AttributeError` propagates, or run
`full_clean` and a normal save. -/
def save (st : State) (s : SchemaRow) : State × Option Err :=
  match MarshmallowField.get_field_name s.field_type with
  | none => (st, some .unknownFieldType)
  | some tn =>
    let schema_dict : JValue :=
      if s.is_multiple then
        .obj [("type", .str "array"), ("items", .obj [("type", .str tn)])]
      else .obj [("type", .str tn)]
    let s' := { s with schema := schema_dict }
    if s'.pk.isSome && st.classes.any (fun c => c.schemaPks.contains (s'.pk.getD 0)) then
      clone st s'
    else if !(slug_ok s'.name) then (st, some .validationFailed)
    else match s'.pk with
      | some p =>
        if st.schemas.any (fun r => r.pk == some p) then
          ({ st with schemas := st.schemas.map (fun r => if r.pk == some p then s' else r) }, none)
        else ({ st with schemas := st.schemas ++ [s'] }, none)
      | none => ({ st with schemas := st.schemas ++ [{ s' with pk := some (freshSchemaPk st.schemas) }] }, none)

end SchemaModel

/-- All relation destinations appearing in the attribute table. -/
def destNodes (attrs : List Attrib) : List Nat :=
  attrs.filterMap (fun a => a.destination)

/-- Termination measure for the stack-based graph traversals: the number of
nodes that can still enter the visited set (counted in the finite universe of
stack nodes and relation destinations), weighted high, plus the stack size. -/
def traverseMeasure (attrs : List Attrib) (visited heads : List Nat) : Nat :=
  ((heads.toFinset ∪ (destNodes attrs).toFinset) \ visited.toFinset).card *
    (attrs.length + 2) + heads.length

theorem traverseMeasure_skip (attrs : List Attrib) (visited heads : List Nat)
    (c : Nat) :
    traverseMeasure attrs visited heads < traverseMeasure attrs visited (c :: heads) := by
  unfold traverseMeasure
  have hsub : (heads.toFinset ∪ (destNodes attrs).toFinset) \ visited.toFinset ⊆
      ((c :: heads).toFinset ∪ (destNodes attrs).toFinset) \ visited.toFinset := by
    apply Finset.sdiff_subset_sdiff _ (le_refl _)
    apply Finset.union_subset_union _ (le_refl _)
    intro x hx
    simp only [List.mem_toFinset] at hx ⊢
    exact List.mem_cons_of_mem c hx
  have hcard := Finset.card_le_card hsub
  have h1 := Nat.mul_le_mul_right (attrs.length + 2) hcard
  simp only [List.length_cons]
  omega

theorem traverseMeasure_expand (attrs : List Attrib) (visited heads newHeads : List Nat)
    (current : Nat)
    (hnew : ∀ x ∈ newHeads, x ∈ destNodes attrs)
    (hcur : current ∉ visited)
    (hlen : newHeads.length ≤ attrs.length) :
    traverseMeasure attrs (current :: visited) (newHeads ++ heads) <
      traverseMeasure attrs visited (current :: heads) := by
  unfold traverseMeasure
  set K := attrs.length + 2 with hK
  set S := ((current :: heads).toFinset ∪ (destNodes attrs).toFinset) \ visited.toFinset with hS
  have hmem : current ∈ S := by
    simp only [hS, Finset.mem_sdiff, Finset.mem_union, List.mem_toFinset]
    exact ⟨Or.inl (List.mem_cons_self current heads), hcur⟩
  have hsub : ((newHeads ++ heads).toFinset ∪ (destNodes attrs).toFinset) \
      (current :: visited).toFinset ⊆ S.erase current := by
    intro x hx
    simp only [Finset.mem_sdiff, Finset.mem_union, List.mem_toFinset,
      List.mem_append, List.mem_cons] at hx
    rcases hx with ⟨hin, hout⟩
    push_neg at hout
    simp only [Finset.mem_erase, hS, Finset.mem_sdiff, Finset.mem_union,
      List.mem_toFinset, List.mem_cons]
    refine ⟨hout.1, ?_, hout.2⟩
    rcases hin with (hx1 | hx2) | hx3
    · exact Or.inr (hnew x hx1)
    · exact Or.inl (Or.inr hx2)
    · exact Or.inr hx3
  have hcard : (((newHeads ++ heads).toFinset ∪ (destNodes attrs).toFinset) \
      (current :: visited).toFinset).card ≤ S.card - 1 := by
    calc _ ≤ (S.erase current).card := Finset.card_le_card hsub
    _ = S.card - 1 := Finset.card_erase_of_mem hmem
  have hpos : 1 ≤ S.card := Finset.card_pos.mpr ⟨current, hmem⟩
  have h1 := Nat.mul_le_mul_right K hcard
  have h2 : (S.card - 1) * K = S.card * K - K := by
    rw [Nat.sub_mul, one_mul]
  have h3 : K ≤ S.card * K := Nat.le_mul_of_pos_left K hpos
  simp only [List.length_append, List.length_cons]
  omega

theorem length_insertByTitle (a : Attrib) (l : List Attrib) :
    (insertByTitle a l).length = l.length + 1 := by
  induction l with
  | nil => rfl
  | cons b t ih =>
    simp only [insertByTitle]
    split
    · simp
    · simp [ih]

theorem length_sortByTitle (l : List Attrib) :
    (sortByTitle l).length = l.length := by
  unfold sortByTitle
  induction l with
  | nil => rfl
  | cons a t ih => simp [List.foldr_cons, length_insertByTitle, ih]

theorem mem_insertByTitle (a b : Attrib) (l : List Attrib) :
    b ∈ insertByTitle a l ↔ b = a ∨ b ∈ l := by
  induction l with
  | nil => simp [insertByTitle]
  | cons c t ih =>
    simp only [insertByTitle]
    split
    · simp
    · simp [ih]
      tauto

theorem mem_sortByTitle (a : Attrib) (l : List Attrib) :
    a ∈ sortByTitle l ↔ a ∈ l := by
  induction l with
  | nil => simp [sortByTitle]
  | cons b t ih =>
    simp only [sortByTitle, List.foldr_cons] at *
    rw [mem_insertByTitle, ih]
    simp

namespace EntityModel

/-- The destinations pushed when `is_connected_to` expands a node:
`current.attributes.filter(is_relation=True)` (title order), each non-null
destination not already visited.  Note the `deleted` flag is *not* filtered. -/
def successors (st : State) (current : Nat) (visited : List Nat) : List Nat :=
  ((sortByTitle (st.attrs.filter
      (fun a => a.entity == current && a.is_relation))).filterMap
    (fun a => a.destination)).filter (fun d => !(visited.contains d))

theorem successors_subset_dests (st : State) (current : Nat) (visited : List Nat) :
    ∀ x ∈ successors st current visited, x ∈ destNodes st.attrs := by
  intro x hx
  unfold successors at hx
  rw [List.mem_filter] at hx
  rcases List.mem_filterMap.mp hx.1 with ⟨a, ha, hdest⟩
  rw [mem_sortByTitle, List.mem_filter] at ha
  exact List.mem_filterMap.mpr ⟨a, ha.1, hdest⟩

theorem successors_length_le (st : State) (current : Nat) (visited : List Nat) :
    (successors st current visited).length ≤ st.attrs.length := by
  unfold successors
  calc _ ≤ ((sortByTitle (st.attrs.filter
        (fun a => a.entity == current && a.is_relation))).filterMap
        (fun a => a.destination)).length := List.length_filter_le _ _
  _ ≤ (sortByTitle (st.attrs.filter
        (fun a => a.entity == current && a.is_relation))).length :=
      List.length_filterMap_le _ _
  _ = (st.attrs.filter (fun a => a.entity == current && a.is_relation)).length :=
      length_sortByTitle _
  _ ≤ st.attrs.length := List.length_filter_le _ _

/-- The `while stack:` loop of `AbstractEntityModel.is_connected_to`
(`entity.py`, lines 239-272).  The Lean stack head is the Python stack top
(`stack.pop()` takes the last appended element, so a round of appends becomes
`pushed.reverse ++ rest`).  The target test precedes the visited/depth test;
a node skipped for depth is *not* marked visited. -/
def is_connected_to_aux (st : State) (target max_depth : Nat)
    (visited : List Nat) : List (Nat × Nat) → Bool
  | [] => false
  | (current, depth) :: rest =>
    if current == target then true
    else if visited.contains current || max_depth ≤ depth then
      is_connected_to_aux st target max_depth visited rest
    else
      is_connected_to_aux st target max_depth (current :: visited)
        (((successors st current (current :: visited)).map
          (fun d => (d, depth + 1))).reverse ++ rest)
termination_by stack => traverseMeasure st.attrs visited (stack.map Prod.fst)
decreasing_by
  · simp only [List.map_cons]
    exact traverseMeasure_skip _ _ _ _
  · simp only [List.map_cons, List.map_append, List.map_reverse, List.map_map]
    rw [show (Prod.fst ∘ fun d : Nat => (d, depth + 1)) = id from rfl, List.map_id]
    have hrev : ∀ x ∈ (successors st current (current :: visited)).reverse,
        x ∈ destNodes st.attrs := by
      intro x hx
      exact successors_subset_dests st current (current :: visited) x
        (List.mem_reverse.mp hx)
    have hlen : (successors st current (current :: visited)).reverse.length ≤
        st.attrs.length := by
      rw [List.length_reverse]
      exact successors_length_le _ _ _
    have hcur : current ∉ visited := by
      rename_i h
      simp only [Bool.or_eq_true, decide_eq_true_eq, not_or] at h
      exact fun hc => h.1 (by simpa using hc)
    exact traverseMeasure_expand st.attrs visited (rest.map Prod.fst) _ current
      hrev hcur hlen

/-- Embedding of `AbstractEntityModel.is_connected_to` (`entity.py`, lines 239-272):
iterative DFS from `self` with an explicit `(entity, depth)` stack, a fresh
visited set (the `visited` parameter of the source is overwritten), and the
depth cut-off `depth >= max_depth`. -/
def is_connected_to (st : State) (self target : Nat) (max_depth : Nat) : Bool :=
  is_connected_to_aux st target max_depth [] [(self, 0)]

/-- Lookup `dest.entity_class.uuid`: the class uuid of an entity (foreign keys are
always resolvable in the source; a default is supplied to keep the lookup
total). -/
def classUuidOfEntity (st : State) (e : Nat) : Nat :=
  (((st.entities.find? (fun x => x.pk == e)).bind (fun x =>
    (st.classes.find? (fun c => c.pk == x.entity_class)).map (fun c => c.uuid)))).getD 0

/-- Lookup of `e.uuid` of an entity row, for `return_objects=False`. -/
def uuidOfEntity (st : State) (e : Nat) : Nat :=
  ((st.entities.find? (fun x => x.pk == e)).map (fun x => x.uuid)).getD 0

/-- The destinations pushed when `find_link_path_to` expands a node:
relation attributes with a non-null destination (title order), pruned by the
`allowed_link_codes` / `allowed_entity_types` filters — which, like the
source's truthiness tests, are inert when the given collection is empty —
and by the visited set. -/
def pathSuccessors (st : State) (current : Nat) (visited : List Nat)
    (allowed_entity_types : Option (List Nat))
    (allowed_link_codes : Option (List String)) : List Nat :=
  (sortByTitle (st.attrs.filter
      (fun a => a.entity == current && a.is_relation && a.destination != none))).filterMap
    (fun a =>
      if (match allowed_link_codes with
          | some cs => !cs.isEmpty && !cs.contains a.code
          | none => false) then none
      else match a.destination with
      | none => none
      | some d =>
        if (match allowed_entity_types with
            | some ts => !ts.isEmpty && !ts.contains (classUuidOfEntity st d)
            | none => false) then none
        else if visited.contains d then none else some d)

theorem pathSuccessors_subset_dests (st : State) (current : Nat)
    (visited : List Nat) (types : Option (List Nat)) (codes : Option (List String)) :
    ∀ x ∈ pathSuccessors st current visited types codes, x ∈ destNodes st.attrs := by
  intro x hx
  unfold pathSuccessors at hx
  rcases List.mem_filterMap.mp hx with ⟨a, ha, hval⟩
  rw [mem_sortByTitle, List.mem_filter] at ha
  refine List.mem_filterMap.mpr ⟨a, ha.1, ?_⟩
  repeat' split at hval
  all_goals simp_all

theorem pathSuccessors_length_le (st : State) (current : Nat)
    (visited : List Nat) (types : Option (List Nat)) (codes : Option (List String)) :
    (pathSuccessors st current visited types codes).length ≤ st.attrs.length := by
  unfold pathSuccessors
  calc _ ≤ (sortByTitle (st.attrs.filter
        (fun a => a.entity == current && a.is_relation && a.destination != none))).length :=
      List.length_filterMap_le _ _
  _ = (st.attrs.filter
        (fun a => a.entity == current && a.is_relation && a.destination != none)).length :=
      length_sortByTitle _
  _ ≤ st.attrs.length := List.length_filter_le _ _

/-- Result of the `find_link_path_to` loop: an early `return result_path`
(`mode='first'`), or the loop reaching an empty stack with the accumulated
`paths`. -/
inductive PathsOut where
  | firstFound (p : List Nat)
  | finished (ps : List (List Nat))

/-- The `while stack:` loop of `AbstractEntityModel.find_link_path_to`
(`entity.py`, lines 395-466).  A popped node equal to the target records the
path (projected to uuids when `return_objects` is false) before any depth or
visited test; otherwise the node is skipped when visited or when the path
already holds more than `max_depth` nodes, and expanded (marking it visited)
with each pushed entry extending the path. -/
def find_link_path_to_aux (st : State) (target : Nat)
    (allowed_entity_types : Option (List Nat))
    (allowed_link_codes : Option (List String))
    (mode_first : Bool) (max_depth : Nat) (return_objects : Bool)
    (visited : List Nat) (paths : List (List Nat)) :
    List (Nat × List Nat) → PathsOut
  | [] => .finished paths
  | (current, path) :: rest =>
    if current == target then
      let result_path := if return_objects then path
        else path.map (fun p => uuidOfEntity st p)
      if mode_first then .firstFound result_path
      else find_link_path_to_aux st target allowed_entity_types allowed_link_codes
        mode_first max_depth return_objects visited (paths ++ [result_path]) rest
    else if visited.contains current || max_depth < path.length then
      find_link_path_to_aux st target allowed_entity_types allowed_link_codes
        mode_first max_depth return_objects visited paths rest
    else
      find_link_path_to_aux st target allowed_entity_types allowed_link_codes
        mode_first max_depth return_objects (current :: visited) paths
        (((pathSuccessors st current (current :: visited)
            allowed_entity_types allowed_link_codes).map
          (fun d => (d, path ++ [d]))).reverse ++ rest)
termination_by stack => traverseMeasure st.attrs visited (stack.map Prod.fst)
decreasing_by
  · simp only [List.map_cons]
    exact traverseMeasure_skip _ _ _ _
  · simp only [List.map_cons]
    exact traverseMeasure_skip _ _ _ _
  · simp only [List.map_cons, List.map_append, List.map_reverse, List.map_map]
    rw [show (Prod.fst ∘ fun d : Nat => (d, path ++ [d])) = id from rfl, List.map_id]
    have hrev : ∀ x ∈ (pathSuccessors st current (current :: visited)
        allowed_entity_types allowed_link_codes).reverse, x ∈ destNodes st.attrs := by
      intro x hx
      exact pathSuccessors_subset_dests st current (current :: visited) _ _ x
        (List.mem_reverse.mp hx)
    have hlen : (pathSuccessors st current (current :: visited)
        allowed_entity_types allowed_link_codes).reverse.length ≤ st.attrs.length := by
      rw [List.length_reverse]
      exact pathSuccessors_length_le _ _ _ _ _
    have hcur : current ∉ visited := by
      rename_i h
      simp only [Bool.or_eq_true, decide_eq_true_eq, not_or] at h
      exact fun hc => h.1 (by simpa using hc)
    exact traverseMeasure_expand st.attrs visited (rest.map Prod.fst) _ current
      hrev hcur hlen

/-- Embedding of `AbstractEntityModel.find_link_path_to` (`entity.py`, lines 395-466):
the loop starts from `[(self, [self])]`; the wrapper returns the first found
path (`inl`), `inl none` for `mode='first'` without a hit, or the accumulated
paths (`inr`) for `mode='all'`. -/
def find_link_path_to (st : State) (self target : Nat)
    (allowed_entity_types : Option (List Nat))
    (allowed_link_codes : Option (List String))
    (mode_first : Bool) (max_depth : Nat) (return_objects : Bool) :
    Option (List Nat) ⊕ List (List Nat) :=
  match find_link_path_to_aux st target allowed_entity_types allowed_link_codes
      mode_first max_depth return_objects [] [] [(self, [self])] with
  | .firstFound p => .inl (some p)
  | .finished ps => if mode_first then .inl none else .inr ps

/-- The `mode='all'` result of `find_link_path_to` (the `inr` branch). -/
def find_all_paths (st : State) (self target : Nat)
    (allowed_entity_types : Option (List Nat))
    (allowed_link_codes : Option (List String))
    (max_depth : Nat) (return_objects : Bool) : List (List Nat) :=
  match find_link_path_to st self target allowed_entity_types allowed_link_codes
      false max_depth return_objects with
  | .inl _ => []
  | .inr ps => ps

end EntityModel

namespace Factory

/-- A schema row of the factory variant (`datacore/models/schema.py`):
`unique_set` uses the `UNIQUE_SET` codes of `models/constants.py`
(0 = normal, 1 = globaly, 2 = entity).  `is_time_series` is written as a bare
annotation in the source (`is_time_series: models.BooleanField(...)`); it is
modelled as the field the annotation evidently declares. -/
structure FSchema where
  pk : Nat
  field_type : Nat
  unique_set : Nat
  is_time_series : Bool
deriving DecidableEq

/-- A row of `BaseAttributeModel` (`datacore/models/factory.py`, lines
26-52): just a reference to its schema (values carry the entity). -/
structure FAttr where
  pk : Nat
  schemaPk : Nat
deriving DecidableEq

/-- A row of `BaseValueModel` (`factory.py`, lines 55-78). -/
structure FValue where
  pk : Nat
  entity : Nat
  attribute_id : Nat
  value : JValue
  relationship : List Nat
  timestamp : Int

/-- The factory variant's tables. -/
structure FState where
  schemas : List FSchema
  attrs : List FAttr
  values : List FValue

/-- Embedding of `BaseValueModel.save` (`datacore/models/factory.py`, lines
87-114).  The method's first statement evaluates
`self.attribute.unique_set == UNIQUE_SET.globaly`; `BaseAttributeModel`
declares only `schema` and `meta_data`, so the `unique_set` attribute access
raises `AttributeError` immediately — before any uniqueness scan and before
any write.  (Were that field read through the schema, where `schema.py`
declares it, the later `FIELD_TYPES.relationship` comparison would raise the
same way: `relationship` is not a member of the `FIELD_TYPES` table of
`constants.py`.)  Every save therefore raises with the state untouched, and
the `NotUnique`-style `ValueError` raises further down are unreachable. -/
def fvalue_save (st : FState) (v : FValue) : FState × Option Err :=
  let _attr := st.attrs.find? (fun a => a.pk == v.attribute_id)
  (st, some .attributeError)

end Factory

/-- One directed edge of the graph `is_connected_to` walks: a relation
attribute of `u` whose destination is `v`.  The traversal does *not* filter
the `deleted` tombstone. -/
def relEdge (st : State) (u v : Nat) : Bool :=
  st.attrs.any (fun a => a.entity == u && a.is_relation && a.destination == some v)

/-- An edge over non-deleted relation attributes only — the graph described
by the specification. -/
def liveEdge (st : State) (u v : Nat) : Bool :=
  st.attrs.any (fun a =>
    a.entity == u && a.is_relation && !a.deleted && a.destination == some v)

/-- A path of at most `d` edges from `a` to `b` along `E`-edges. -/
def HasPathLe (E : Nat → Nat → Bool) (a b : Nat) (d : Nat) : Prop :=
  ∃ l : List Nat, List.Chain (fun u v => E u v = true) a l ∧
    (a :: l).getLast? = some b ∧ l.length ≤ d

/-- Appending one `E`-step to a chain. -/
theorem chain_snoc (E : Nat → Nat → Bool) :
    ∀ (l : List Nat) (a v w : Nat),
    List.Chain (fun u x => E u x = true) a l →
    (a :: l).getLast? = some v → E v w = true →
    List.Chain (fun u x => E u x = true) a (l ++ [w]) := by
  intro l
  induction l with
  | nil =>
    intro a v w hc hlast he
    simp only [List.getLast?_singleton, Option.some.injEq] at hlast
    subst hlast
    exact List.Chain.cons he List.Chain.nil
  | cons x t ih =>
    intro a v w hc hlast he
    cases hc with
    | cons hax hc' =>
      have hlast' : (x :: t).getLast? = some v := by
        rw [← List.getLast?_cons_cons (l := t) (a := a) (b := x)]
        exact hlast
      exact List.Chain.cons hax (ih x v w hc' hlast' he)

/-- Members of `successors` are `relEdge`-neighbours. -/
theorem successors_edge (st : State) (c : Nat) (vis : List Nat) :
    ∀ x ∈ EntityModel.successors st c vis, relEdge st c x = true := by
  intro x hx
  unfold EntityModel.successors at hx
  rw [List.mem_filter] at hx
  rcases List.mem_filterMap.mp hx.1 with ⟨a, ha, hdest⟩
  rw [mem_sortByTitle, List.mem_filter] at ha
  unfold relEdge
  rw [List.any_eq_true]
  refine ⟨a, ha.1, ?_⟩
  have h2 := ha.2
  simp only [Bool.and_eq_true] at h2 ⊢
  exact ⟨h2, by simp [hdest]⟩

/-- Soundness invariant of the `is_connected_to` loop: when every stack entry
`(v, k)` is reachable from `a` in exactly `k ≤ max_depth` edges, a `true`
result exhibits a path from `a` to the target of at most `max_depth` edges. -/
theorem is_connected_to_aux_sound (st : State) (a target max_depth : Nat) :
    ∀ (visited : List Nat) (stack : List (Nat × Nat)),
    (∀ p ∈ stack, p.2 ≤ max_depth ∧ ∃ l : List Nat,
      List.Chain (fun u v => relEdge st u v = true) a l ∧
      (a :: l).getLast? = some p.1 ∧ l.length = p.2) →
    EntityModel.is_connected_to_aux st target max_depth visited stack = true →
    HasPathLe (relEdge st) a target max_depth := by
  intro visited stack
  induction visited, stack using EntityModel.is_connected_to_aux.induct st target max_depth with
  | case1 visited =>
    intro _ h
    rw [EntityModel.is_connected_to_aux] at h
    exact absurd h (by simp)
  | case2 visited current depth rest heq =>
    intro hinv _
    have hhead := hinv (current, depth) (List.mem_cons_self _ _)
    rcases hhead with ⟨hd, l, hc, hlast, hlen⟩
    have : current = target := by simpa using heq
    subst this
    exact ⟨l, hc, hlast, by omega⟩
  | case3 visited current depth rest hne hskip ih =>
    intro hinv h
    rw [EntityModel.is_connected_to_aux, if_neg (by simp [hne]), if_pos hskip] at h
    exact ih (fun p hp => hinv p (List.mem_cons_of_mem _ hp)) h
  | case4 visited current depth rest hne hskip ih =>
    intro hinv h
    rw [EntityModel.is_connected_to_aux, if_neg (by simp [hne]), if_neg hskip] at h
    apply ih _ h
    intro p hp
    rw [List.mem_append] at hp
    rcases hp with hp | hp
    · rw [List.mem_reverse] at hp
      rcases List.mem_map.mp hp with ⟨w, hw, hpeq⟩
      subst hpeq
      have hdep : ¬ (max_depth ≤ depth) := by
        intro hc
        exact absurd hskip (by simp [hc])
      have hhead := hinv (current, depth) (List.mem_cons_self _ _)
      rcases hhead with ⟨_, l, hc, hlast, hlen⟩
      refine ⟨by omega, l ++ [w], ?_, ?_, by simp [hlen]⟩
      · exact chain_snoc (relEdge st) l a current w hc hlast
          (successors_edge st current (current :: visited) w hw)
      · rw [show a :: (l ++ [w]) = (a :: l) ++ [w] by simp, List.getLast?_concat]
    · exact hinv p (List.mem_cons_of_mem _ hp)

/-- A member of a list is in its `dropLast` or is its last element. -/
theorem mem_split_last : ∀ (l : List Nat) (x y : Nat),
    x ∈ l → l.getLast? = some y → x ∈ l.dropLast ∨ x = y := by
  intro l
  induction l with
  | nil => intro x y hx _; cases hx
  | cons a t ih =>
    intro x y hx hlast
    cases t with
    | nil =>
      simp only [List.getLast?_singleton, Option.some.injEq] at hlast
      subst hlast
      simp only [List.mem_singleton] at hx
      exact Or.inr hx
    | cons b t' =>
      rw [List.getLast?_cons_cons] at hlast
      rcases List.mem_cons.mp hx with hx | hx
      · subst hx
        left
        simp [List.dropLast_cons₂]
      · rcases ih x y hx hlast with h | h
        · left
          simp [List.dropLast_cons₂, h]
        · exact Or.inr h

/-- Pushed successors of `find_link_path_to` are not in the visited set the
expansion used. -/
theorem pathSuccessors_not_visited (st : State) (c : Nat) (vis : List Nat)
    (types : Option (List Nat)) (codes : Option (List String)) :
    ∀ x ∈ EntityModel.pathSuccessors st c vis types codes, x ∉ vis := by
  intro x hx
  unfold EntityModel.pathSuccessors at hx
  rcases List.mem_filterMap.mp hx with ⟨a, _, hval⟩
  repeat' split at hval
  all_goals simp_all

/-- Invariant of the `find_link_path_to` loop in `mode='all'` with
`return_objects=True`: every recorded path keeps at most `max_depth + 1`
nodes and no duplicates, since the paths of live stack entries end at their
node, are duplicate-free, are bounded by `max_depth + 1` nodes, and have all
their earlier nodes in the visited set. -/
theorem find_aux_all_invariant (st : State) (target : Nat)
    (types : Option (List Nat)) (codes : Option (List String)) (max_depth : Nat) :
    ∀ (visited : List Nat) (paths : List (List Nat)) (stack : List (Nat × List Nat)),
    (∀ e ∈ stack, e.2 ≠ [] ∧ e.2.getLast? = some e.1 ∧ e.2.Nodup ∧
      e.2.length ≤ max_depth + 1 ∧ (∀ x ∈ e.2.dropLast, x ∈ visited)) →
    (∀ p ∈ paths, p.length ≤ max_depth + 1 ∧ p.Nodup) →
    ∀ ps, EntityModel.find_link_path_to_aux st target types codes false max_depth true
      visited paths stack = .finished ps →
    ∀ p ∈ ps, p.length ≤ max_depth + 1 ∧ p.Nodup := by
  intro visited paths stack
  induction visited, paths, stack
    using EntityModel.find_link_path_to_aux.induct st target types codes false max_depth true with
  | case1 visited paths =>
    intro _ hpaths ps h
    rw [EntityModel.find_link_path_to_aux] at h
    cases h
    exact hpaths
  | case2 visited paths current path rest heq hfirst =>
    intro _ _ _ h
    exact absurd hfirst (by simp)
  | case3 visited paths current path rest heq result_path hfirst ih =>
    intro hinv hpaths ps h
    rw [EntityModel.find_link_path_to_aux, if_pos heq] at h
    simp only [Bool.false_eq_true, if_false, if_true] at h ih
    refine ih (fun e he => hinv e (List.mem_cons_of_mem _ he)) ?_ ps h
    intro p hp
    rcases List.mem_append.mp hp with hp | hp
    · exact hpaths p hp
    · have hhead := hinv (current, path) (List.mem_cons_self _ _)
      have hpe : p = path := by simpa using hp
      subst hpe
      exact ⟨hhead.2.2.2.1, hhead.2.2.1⟩
  | case4 visited paths current path rest hne hskip ih =>
    intro hinv hpaths ps h
    rw [EntityModel.find_link_path_to_aux, if_neg (by simp [hne]), if_pos hskip] at h
    exact ih (fun e he => hinv e (List.mem_cons_of_mem _ he)) hpaths ps h
  | case5 visited paths current path rest hne hskip ih =>
    intro hinv hpaths ps h
    rw [EntityModel.find_link_path_to_aux, if_neg (by simp [hne]), if_neg hskip] at h
    have hd : current ∉ visited ∧ path.length ≤ max_depth := by
      simp only [Bool.or_eq_true, decide_eq_true_eq, not_or] at hskip
      exact ⟨fun hc => hskip.1 (by simpa using hc), by omega⟩
    have hhead := hinv (current, path) (List.mem_cons_self _ _)
    rcases hhead with ⟨hnil, hlast, hnodup, hlen, hdrop⟩
    have hpathvis : ∀ x ∈ path, x ∈ current :: visited := by
      intro x hx
      rcases mem_split_last path x current hx hlast with h | h
      · exact List.mem_cons_of_mem _ (hdrop x h)
      · exact h ▸ List.mem_cons_self _ _
    apply ih _ hpaths ps h
    intro e he
    rcases List.mem_append.mp he with he | he
    · rw [List.mem_reverse] at he
      rcases List.mem_map.mp he with ⟨w, hw, hpeq⟩
      subst hpeq
      have hwvis := pathSuccessors_not_visited st current (current :: visited)
        types codes w hw
      refine ⟨by simp, ?_, ?_, ?_, ?_⟩
      · exact List.getLast?_concat _
      · rw [List.nodup_append]
        refine ⟨hnodup, List.nodup_singleton w, ?_⟩
        intro x hx
        simp only [List.mem_singleton]
        intro hxw
        subst hxw
        exact hwvis (hpathvis x hx)
      · simp only [List.length_append, List.length_singleton]
        omega
      · rw [List.dropLast_concat]
        exact hpathvis
    · have := hinv e (List.mem_cons_of_mem _ he)
      exact ⟨this.1, this.2.1, this.2.2.1, this.2.2.2.1,
        fun x hx => List.mem_cons_of_mem _ (this.2.2.2.2 x hx)⟩

/-- Lemma: `AttributeModel.save` either succeeds or raises the destination guard. -/
theorem attr_save_err (st : State) (a : Attrib) :
    (AttributeModel.save st a).2 = none ∨
    (AttributeModel.save st a).2 = some .destinationRequired := by
  unfold AttributeModel.save
  split
  · exact Or.inr rfl
  · split
    · exact Or.inl rfl
    · exact Or.inl rfl

/-- The incoming-attribute loop of `destroy_wrap` never raises the
incoming-links error (only the attribute save guard can fire). -/
theorem processIncoming_no_hil : ∀ (st : State) (l : List Attrib),
    (EntityModel.processIncoming st l).2 ≠ some .hasIncomingLinks := by
  intro st l
  induction l generalizing st with
  | nil => simp [EntityModel.processIncoming]
  | cons a rest ih =>
    rw [EntityModel.processIncoming]
    cases hres : AttributeModel.delete
        { st with values := st.values.filter (fun v => !(v.attribute_id == a.pk)) }
        { a with destination := none } with
    | mk st2 err =>
      cases err with
      | none => exact ih st2
      | some e =>
        have herr := attr_save_err
          { st with values := st.values.filter (fun v => !(v.attribute_id == a.pk)) }
          { a with destination := none, deleted := true }
        rw [show AttributeModel.delete
            { st with values := st.values.filter (fun v => !(v.attribute_id == a.pk)) }
            { a with destination := none } = AttributeModel.save
            { st with values := st.values.filter (fun v => !(v.attribute_id == a.pk)) }
            { a with destination := none, deleted := true } from rfl] at hres
        rw [hres] at herr
        simp only [Prod.snd] at herr
        rcases herr with herr | herr
        · simp at herr
        · simp only [Option.some.injEq] at herr
          subst herr
          simp

/-- The outgoing-links loop never raises the incoming-links error when the
recursive callee never does. -/
theorem destroyList_no_hil (f : State → Nat → State × Option Err)
    (hf : ∀ s d, (f s d).2 ≠ some .hasIncomingLinks) :
    ∀ (st : State) (l : List (Option Nat)),
    (EntityModel.destroyList f st l).2 ≠ some .hasIncomingLinks := by
  intro st l
  induction l generalizing st with
  | nil => simp [EntityModel.destroyList]
  | cons x rest ih =>
    cases x with
    | none => rw [EntityModel.destroyList]; exact ih st
    | some d =>
      rw [EntityModel.destroyList]
      cases hres : f st d with
      | mk st' err =>
        cases err with
        | none => exact ih st'
        | some e =>
          have := hf st d
          rw [hres] at this
          simpa using this

/-- The tail of `destroy_wrap` never raises the incoming-links error. -/
theorem afterIncoming_no_hil (f : State → Nat → State × Option Err)
    (hf : ∀ s d, (f s d).2 ≠ some .hasIncomingLinks) (st : State) (e : Nat) :
    (EntityModel.afterIncoming f st e).2 ≠ some .hasIncomingLinks := by
  simp only [EntityModel.afterIncoming]
  cases hres : EntityModel.destroyList f
      { st with values := st.values.filter (fun v =>
          !((st.attrs.filter (fun a => a.entity == e)).any (fun a => a.pk == v.attribute_id))) }
      (EntityModel.get_outgoing_links
        { st with values := st.values.filter (fun v =>
            !((st.attrs.filter (fun a => a.entity == e)).any (fun a => a.pk == v.attribute_id))) } e) with
  | mk st2 err =>
    cases err with
    | none => simp
    | some x =>
      have := destroyList_no_hil f hf
        { st with values := st.values.filter (fun v =>
            !((st.attrs.filter (fun a => a.entity == e)).any (fun a => a.pk == v.attribute_id))) }
        (EntityModel.get_outgoing_links
          { st with values := st.values.filter (fun v =>
              !((st.attrs.filter (fun a => a.entity == e)).any (fun a => a.pk == v.attribute_id))) } e)
      rw [hres] at this
      simpa using this

/-- A successful `get_incoming_links` result is necessarily the empty list:
the `a.sourse` comprehension raises on any non-empty queryset. -/
theorem get_incoming_links_ok (st : State) (e : Nat) (l : List Nat)
    (h : EntityModel.get_incoming_links st e = .ok l) : l = [] := by
  simp only [EntityModel.get_incoming_links] at h
  split at h
  · cases h; rfl
  · cases h

/-- The `HasIncomingLinks` raise of `destroy_wrap` is unreachable for every
state, fuel and `force` flag: whenever incoming attributes exist,
`get_incoming_links` already raised `AttributeError`, and with none the
guard's branch is not taken. -/
theorem destroy_wrap_no_hil : ∀ (fuel : Nat) (st : State) (e : Nat) (force : Bool),
    (EntityModel.destroy_wrap fuel st e force).2 ≠ some .hasIncomingLinks := by
  intro fuel
  induction fuel with
  | zero => intro st e force; simp [EntityModel.destroy_wrap]
  | succ n ih =>
    intro st e force
    rw [EntityModel.destroy_wrap]
    cases hinc : EntityModel.get_incoming_links st e with
    | error err =>
      have : err ≠ Err.hasIncomingLinks := by
        simp only [EntityModel.get_incoming_links] at hinc
        split at hinc
        · cases hinc
        · cases hinc; simp
      simpa using this
    | ok incoming =>
      have hempty : incoming = [] := get_incoming_links_ok st e incoming hinc
      subst hempty
      simp only [List.isEmpty_nil, Bool.not_true, Bool.false_eq_true, if_false]
      exact afterIncoming_no_hil _ (fun s d => ih s d true) st e

/-- Lemma: `ValueModel.save` never removes a row: every stored primary key is still
present afterwards. -/
theorem value_save_pk_preserved (st : State) (v : ValueRow) :
    ∀ r ∈ st.values, ∃ r' ∈ (ValueModel.save st v).1.values, r'.pk = r.pk := by
  intro r hr
  simp only [ValueModel.save]
  split <;> split
  all_goals first
    | exact ⟨r, hr, rfl⟩
    | exact ⟨r, List.mem_append_left _ hr, rfl⟩
    | · refine ⟨if r.pk == v.pk then v else r, List.mem_map_of_mem _ hr, ?_⟩
        by_cases h : (r.pk == v.pk) = true
        · simp only [h, if_true]
          exact (by simpa using h : r.pk = v.pk).symm
        · simp [h]

/-- The single-row tail of `set_value` never removes a row. -/
theorem scalarSave_pk_preserved (st : State) (a : Attrib) (value : JValue) (now : Int) :
    ∀ r ∈ st.values, ∃ r' ∈ (AttributeModel.scalarSave st a value now).1.values,
      r'.pk = r.pk := by
  intro r hr
  simp only [AttributeModel.scalarSave]
  split
  · exact value_save_pk_preserved _ _ r hr
  · exact value_save_pk_preserved _ _ r hr

/-- Lemma: `mkBulkRows` is empty exactly when its input is. -/
theorem mkBulkRows_isEmpty (base : Nat) (a : Attrib) (dft : Option JValue) :
    ∀ kept, (AttributeModel.mkBulkRows base a dft kept).isEmpty = kept.isEmpty := by
  intro kept
  cases kept with
  | nil => rfl
  | cons p rest => cases p; rfl

/-- C3 (amended): whenever `is_connected_to(a, b, max_depth=d)` returns
true, a path of at most `d` edges from `a` to `b` exists over
relation-attribute edges with non-null destination, *tombstoned attributes
included*; equivalently, it returns false whenever every such path needs
more than `d` edges.  The search may also return false when a path of at
most `d` edges exists (the shared visited set can cut short paths off), and
the original claim's restriction to non-deleted edges does not hold — both
failures are exhibited by `c3_counterexample`. -/
theorem c3_connected_sound (st : State) (a b d : Nat)
    (h : EntityModel.is_connected_to st a b d = true) :
    HasPathLe (relEdge st) a b d := by
  apply is_connected_to_aux_sound st a b d [] [(a, 0)] _ h
  intro p hp
  have hpe : p = (a, 0) := by simpa using hp
  subst hpe
  exact ⟨Nat.zero_le d, [], List.Chain.nil, by simp, rfl⟩

/-- C10: `is_connected_to(e, e, max_depth=d)` is true for every depth bound
`d`, including `d = 0`: the popped start node is compared with the target
before the depth cut-off is consulted. -/
theorem c10_self_connected (st : State) (e d : Nat) :
    EntityModel.is_connected_to st e e d = true := by
  unfold EntityModel.is_connected_to
  rw [EntityModel.is_connected_to_aux]
  simp

/-- Lemma: a failed `decodeItem` is always the unpack/comparison type
error. -/
theorem decodeItem_error (item : JValue) (e : Err)
    (h : AttributeModel.decodeItem item = .error e) : e = .typeError := by
  unfold AttributeModel.decodeItem at h
  split at h <;> simp_all

/-- Lemma: a failed `decodeItems` is always the type error as well. -/
theorem decodeItems_error : ∀ (items : List JValue) (e : Err),
    AttributeModel.decodeItems items = .error e → e = .typeError := by
  intro items
  induction items with
  | nil => intro e h; simp [AttributeModel.decodeItems] at h
  | cons item rest ih =>
    intro e h
    rw [AttributeModel.decodeItems] at h
    split at h
    · cases h
      exact decodeItem_error item _ (by assumption)
    · split at h
      · cases h
        exact ih _ (by assumption)
      · cases h

/-- Lemma: `ValueModel.save` never raises the uniqueness error. -/
theorem value_save_ne_notUnique (st : State) (v : ValueRow) :
    (ValueModel.save st v).2 ≠ some .notUnique := by
  simp only [ValueModel.save]
  split <;> split <;> simp

/-- Lemma: the single-row tail of `set_value` never raises it either. -/
theorem scalarSave_ne_notUnique (st : State) (a : Attrib) (value : JValue)
    (now : Int) :
    (AttributeModel.scalarSave st a value now).2 ≠ some .notUnique := by
  simp only [AttributeModel.scalarSave]
  split
  · exact value_save_ne_notUnique _ _
  · exact value_save_ne_notUnique _ _

/-- C7: the claimed uniqueness behaviour is one the program cannot produce.
In the factory variant, every `BaseValueModel.save` raises `AttributeError`
while evaluating `self.attribute.unique_set` — before any scan or write —
so the first write never succeeds and the `NotUnique`-style raises further
down are dead code.  And the claim's cited `AbstractAttributeModel.set_value`
performs no uniqueness check at all, so no write through it ever fails with
`NotUnique` (its possible errors are the bulk-decode type error and the
primary-key/forced-update failures of the value save); the `datacore` values
module that might have carried a check is absent from the sources. -/
theorem c7_unique_check_unreachable :
    (∀ (st : Factory.FState) (v : Factory.FValue),
      Factory.fvalue_save st v = (st, some Err.attributeError)) ∧
    (∀ (st : State) (a : Attrib) (v : JValue) (now : Int),
      (AttributeModel.set_value st a v now).2 ≠ some Err.notUnique) := by
  constructor
  · intro st v
    rfl
  · intro st a v now
    simp only [AttributeModel.set_value]
    split
    · split
      · rename_i e he
        intro hcontra
        simp only [Option.some.injEq] at hcontra
        have := decodeItems_error _ _ he
        simp_all
      · split
        · simp
        · exact scalarSave_ne_notUnique _ _ _ _
    · exact scalarSave_ne_notUnique _ _ _ _

/-- C8 (amended): for a time-series attribute, a list input whose entries
include at least one with a non-null timestamp strictly before "now" results
in exactly those entries being appended in one batch with no error; a list
with no such entry, and any non-list input, falls to the single-row branch,
which may update a row in place, append one row holding the raw input, or
fail with a primary-key conflict (so repeated scalar writes need not grow
the history — see `c8_counterexample`).  Across *all* inputs, no existing
value row is ever removed: every stored primary key survives the call. -/
theorem c8_timeseries_bulk :
    (∀ (st : State) (a : Attrib) (items : List JValue)
      (pairs : List (JValue × Option Int)) (now : Int),
      a.is_timeseries = true →
      AttributeModel.decodeItems items = .ok pairs →
      AttributeModel.bulkKept pairs now ≠ [] →
      AttributeModel.set_value st a (.arr items) now =
        ({ st with values := st.values ++ (AttributeModel.mkBulkRows
            (freshValuePk st.values) a (AttributeModel.schemaDefault st a)
            (AttributeModel.bulkKept pairs now)) }, none)) ∧
    (∀ (st : State) (a : Attrib) (v : JValue) (now : Int), ∀ r ∈ st.values,
      ∃ r' ∈ (AttributeModel.set_value st a v now).1.values, r'.pk = r.pk) := by
  constructor
  · intro st a items pairs now hts hdec hkept
    simp only [AttributeModel.set_value, hts, hdec]
    rw [if_pos]
    rw [mkBulkRows_isEmpty]
    simpa using hkept
  · intro st a v now r hr
    simp only [AttributeModel.set_value]
    split
    · split
      · exact ⟨r, hr, rfl⟩
      · split
        · exact ⟨r, List.mem_append_left _ hr, rfl⟩
        · exact scalarSave_pk_preserved _ _ _ _ r hr
    · exact scalarSave_pk_preserved _ _ _ _ r hr

/-- C9 (amended): with `mode='all'` and `return_objects=True`, every path
`find_link_path_to` returns contains at most `max_depth + 1` nodes — one more
than the claim's `max_depth`, since the length test `len(path) > max_depth`
gates expansion, not recording (see `c9_counterexample`) — and no node occurs
twice within any single returned path. -/
theorem c9_all_paths_bounded_nodup (st : State) (a t : Nat)
    (types : Option (List Nat)) (codes : Option (List String)) (k : Nat) :
    ∀ p ∈ EntityModel.find_all_paths st a t types codes k true,
      p.length ≤ k + 1 ∧ p.Nodup := by
  intro p hp
  unfold EntityModel.find_all_paths EntityModel.find_link_path_to at hp
  cases hres : EntityModel.find_link_path_to_aux st t types codes false k true
      [] [] [(a, [a])] with
  | firstFound q => rw [hres] at hp; simp at hp
  | finished ps =>
    rw [hres] at hp
    simp only [Bool.false_eq_true, if_false] at hp
    refine find_aux_all_invariant st t types codes k [] [] [(a, [a])] ?_
      (by simp) ps hres p hp
    intro e he
    have hea : e = (a, [a]) := by simpa using he
    subst hea
    exact ⟨by simp, by simp, by simp, by simp, by simp⟩

/-- Entity, attribute and value tables for the C1 scenario: one entity with
one non-time-series attribute `p` currently holding the string `"42"`. -/
def entC1 : Entity := ⟨1, 500, 1, "e1"⟩

/-- State for the C1 scenario. -/
def stC1 : State :=
  { classes := [⟨1, 100, "c", []⟩], entities := [entC1],
    attrs := [⟨10, 1, "Prop P", "p", 50, false, false, none, false, false⟩],
    values := [⟨1, 1, 10, .str "42", 0, false⟩],
    schemas := [⟨some 50, "Prop P", "p", 1, 0, 21, false, .obj [("type", .str "string")]⟩] }

/-- C1: the `get_data`/`set_data` round trip is *not* idempotent.  `get_data`
stores, under each attribute code, the whole `{code: value}` dictionary that
`get_value` returns, and `set_data` feeds that fragment verbatim to
`set_value`, so after the round trip the stored value of the non-time-series
attribute `p` has changed from `"42"` to `{"p": "42"}` (the write path is
the `validate=False` body of `set_data`; with validation enabled the wrapped
document is rejected by the external marshmallow validator instead, which
equally breaks the claimed idempotence). -/
theorem c1_get_set_roundtrip_mutates :
    stC1.values.map (fun v => v.value) = [.str "42"] ∧
    ((EntityModel.set_data stC1 entC1
        (EntityModel.get_data stC1 entC1 true none none) 100).1.values.map
      (fun v => v.value)) = [.obj [("p", .str "42")]] := by
  exact ⟨rfl, rfl⟩

/-- Graph for the C3 counterexample, first half: one *tombstoned* relation
attribute from entity 1 to entity 2. -/
def stC3a : State :=
  { classes := [], entities := [],
    attrs := [⟨10, 1, "a", "r", 50, false, true, some 2, false, true⟩],
    values := [], schemas := [] }

/-- Graph for the C3 counterexample, second half: live edges 1→3, 1→2',
2'→3, 3→4, 4→5 (attribute titles order the queryset so that node 2 is
expanded before node 3). -/
def stC3b : State :=
  { classes := [], entities := [],
    attrs := [⟨10, 1, "a", "to3", 50, false, true, some 3, false, false⟩,
              ⟨11, 1, "b", "to2", 50, false, true, some 2, false, false⟩,
              ⟨12, 2, "c", "to3b", 50, false, true, some 3, false, false⟩,
              ⟨13, 3, "d", "to4", 50, false, true, some 4, false, false⟩,
              ⟨14, 4, "e", "to5", 50, false, true, some 5, false, false⟩],
    values := [], schemas := [] }

/-- C3 (counterexample): the claim fails in both directions.  In `stC3a`
every path over non-deleted relation edges from 1 to 2 needs more than one
edge (there are none at all), yet `is_connected_to(1, 2, 1)` is true — the
traversal follows tombstoned attributes.  In `stC3b` all attributes are
live and the path 1→3→4→5 has three edges, within the bound 3, yet
`is_connected_to(1, 5, 3)` is false — node 3 is first expanded at depth 2
through 1→2→3 and the visited set then blocks its re-expansion at depth 1. -/
theorem c3_counterexample :
    (EntityModel.is_connected_to stC3a 1 2 1 = true ∧
      ¬ HasPathLe (liveEdge stC3a) 1 2 1) ∧
    (HasPathLe (liveEdge stC3b) 1 5 3 ∧
      EntityModel.is_connected_to stC3b 1 5 3 = false) := by
  refine ⟨⟨?_, ?_⟩, ⟨?_, ?_⟩⟩
  · simp +decide [EntityModel.is_connected_to, EntityModel.is_connected_to_aux,
      EntityModel.successors, sortByTitle, insertByTitle, stC3a, destNodes]
  · rintro ⟨l, hc, hlast, hlen⟩
    cases l with
    | nil => simp at hlast
    | cons x t =>
      cases t with
      | nil =>
        cases hc with
        | cons h _ => simp [liveEdge, stC3a] at h
      | cons y t' =>
        simp only [List.length_cons] at hlen
        omega
  · refine ⟨[3, 4, 5], ?_, by decide, by decide⟩
    exact List.Chain.cons (by decide) (List.Chain.cons (by decide)
      (List.Chain.cons (by decide) List.Chain.nil))
  · simp +decide [EntityModel.is_connected_to, EntityModel.is_connected_to_aux,
      EntityModel.successors, sortByTitle, insertByTitle, stC3b, destNodes]

/-- The entity class of the C4 scenario: schema `a` has just been removed
from its schema set, so `schemaPks` no longer contains it. -/
def clsC4 : EClass := ⟨1, 100, "cls", []⟩

/-- State for C4: one entity of the class still carrying attribute `a` with
one stored value. -/
def stC4 : State :=
  { classes := [clsC4], entities := [⟨1, 500, 1, "e1"⟩],
    attrs := [⟨10, 1, "A", "a", 50, false, false, none, false, false⟩],
    values := [⟨1, 1, 10, .str "x", 0, false⟩],
    schemas := [⟨some 50, "A", "a", 1, 0, 21, false, .obj [("type", .str "string")]⟩] }

/-- C4: after `make_migrations` with `removed = {"a"}`, the attribute `a` is
*not* tombstoned — the migration is a no-op.  The loop draws its candidate
schemas from `self.schemas.filter(name__in=all_names)`, the class's *new*
schema set, which no longer contains removed schemas, so `remove_attribute`
never runs; the docstring ("for those that are missing in the new schema,
make delete") and the spec say the attribute must be soft-deleted.  (The
values are retained, trivially.) -/
theorem c4_removed_not_tombstoned :
    EntityClassModel.make_migrations stC4 clsC4 [] ["a"] [] 0 = (stC4, none) ∧
    ((EntityClassModel.make_migrations stC4 clsC4 [] ["a"] [] 0).1.attrs.map
      (fun a => a.deleted)) = [false] := by
  exact ⟨rfl, rfl⟩

/-- State for C5: entity 1 holds a non-deleted relation attribute `manager`
pointing at entity 2, with one stored value row. -/
def stC5 : State :=
  { classes := [⟨1, 100, "c", []⟩],
    entities := [⟨1, 501, 1, "e1"⟩, ⟨2, 502, 1, "e2"⟩],
    attrs := [⟨10, 1, "Manager", "manager", 50, false, true, some 2, false, false⟩],
    values := [⟨1, 1, 10, .num 7, 0, false⟩],
    schemas := [] }

/-- C5: `destroy_wrap(E2, force=True)` does *not* complete, and the
attribute is never tombstoned.  The very first statement,
`get_incoming_links()`, raises `AttributeError` (`a.sourse` resolves on
attribute rows, which carry no such name) because the incoming queryset is
non-empty, so the call returns with the state untouched.  Even past that
crash the teardown could not succeed: the incoming-attribute loop it guards
deletes the attribute's value rows, clears `destination`, and then the soft
`delete()` re-saves the attribute — and `AbstractAttributeModel.save` raises
`AttributeError` ("The destination field must be specified for
link-attributes") because the attribute is still a relation with a null
destination.  The second conjunct evaluates that loop body directly on the
same incoming queryset. -/
theorem c5_force_destroy_raises :
    EntityModel.destroy_wrap 5 stC5 2 true = (stC5, some Err.attributeError) ∧
    EntityModel.processIncoming stC5 (sortByTitle (stC5.attrs.filter
        (fun a => a.is_relation && a.destination == some 2 && !a.deleted))) =
      ({ stC5 with values := [] }, some Err.destinationRequired) := by
  exact ⟨rfl, rfl⟩

/-- State for C6: entity 1 carries a non-deleted relation attribute whose
destination is entity 2, so entity 2 has exactly one incoming link. -/
def stC6 : State :=
  { classes := [⟨1, 100, "c", []⟩],
    entities := [⟨1, 501, 1, "e1"⟩, ⟨2, 502, 1, "e2"⟩],
    attrs := [⟨10, 1, "Owner", "owner", 50, false, true, some 2, false, false⟩],
    values := [], schemas := [] }

/-- C6: the guard the claim describes cannot fire.  Whenever an incoming
link exists, `get_incoming_links` raises `AttributeError` while evaluating
`a.sourse` (attribute rows have no such name — `sourse` is the reverse
accessor installed on the *entity* model), so `destroy_wrap(e, force=False)`
on a linked entity fails with that `AttributeError` before reading anything
else and before any modification; and the `HasIncomingLinks` raise is dead
code — no state, fuel, entity or force flag makes `destroy_wrap` return it,
because the `if incoming:` block is only reached when the incoming list is
empty. -/
theorem c6_incoming_guard_crashes :
    EntityModel.destroy_wrap 5 stC6 2 false = (stC6, some Err.attributeError) ∧
    ∀ (fuel : Nat) (st : State) (e : Nat) (force : Bool),
      (EntityModel.destroy_wrap fuel st e force).2 ≠ some Err.hasIncomingLinks :=
  ⟨rfl, destroy_wrap_no_hil⟩

/-- The time-series attribute of the C8 scenario. -/
def attrC8 : Attrib := ⟨10, 1, "TS", "ts", 50, false, false, none, true, false⟩

/-- State for C8: one entity with one time-series attribute and no values. -/
def stC8 : State :=
  { classes := [⟨1, 100, "c", []⟩], entities := [⟨1, 501, 1, "e1"⟩],
    attrs := [attrC8], values := [],
    schemas := [⟨some 50, "TS", "ts", 1, 0, 21, false, .obj [("type", .str "string")]⟩] }

/-- C8 (counterexample): the claim fails in both parts.  Bulk input with a
single entry whose timestamp 105 lies in the future of now = 100 should
insert nothing, but the empty `objs` list makes `set_value` fall through to
the single-value branch, which appends one row holding the *raw list* as its
value.  And repeated scalar `set_value` calls do not strictly grow the
history: the second call picks up the existing row and force-inserts it
(time-series), colliding on the primary key instead of appending. -/
theorem c8_counterexample :
    ((AttributeModel.set_value stC8 attrC8 (.arr [.arr [.str "x", .num 105]]) 100).1.values.map
      (fun v => v.value)) = [.arr [.arr [.str "x", .num 105]]] ∧
    (AttributeModel.set_value stC8 attrC8 (.arr [.arr [.str "x", .num 105]]) 100).2 = none ∧
    AttributeModel.set_value
      (AttributeModel.set_value stC8 attrC8 (.str "a") 100).1 attrC8 (.str "b") 101 =
      ((AttributeModel.set_value stC8 attrC8 (.str "a") 100).1, some Err.pkConflict) := by
  exact ⟨rfl, rfl, rfl⟩

/-- State for C9: a single live link from entity 1 to entity 2. -/
def stC9 : State :=
  { classes := [⟨1, 100, "c", []⟩],
    entities := [⟨1, 501, 1, "e1"⟩, ⟨2, 502, 1, "e2"⟩],
    attrs := [⟨10, 1, "L", "link", 50, false, true, some 2, false, false⟩],
    values := [], schemas := [] }

/-- The concrete `mode='all'` search of the C9 scenario returns exactly the
two-node path. -/
theorem find_all_paths_stC9 :
    EntityModel.find_all_paths stC9 1 2 none none 1 true = [[1, 2]] := by
  simp +decide [EntityModel.find_all_paths, EntityModel.find_link_path_to,
    EntityModel.find_link_path_to_aux, EntityModel.pathSuccessors, sortByTitle,
    insertByTitle, stC9]

/-- C9 (counterexample): with `max_depth = 1`, `find_link_path_to` in
`mode='all'` returns the path `[1, 2]` of two nodes — more than `max_depth`
nodes, refuting the claimed bound (the depth test only gates expansion, so
recorded paths may carry `max_depth + 1` nodes). -/
theorem c9_counterexample :
    [1, 2] ∈ EntityModel.find_all_paths stC9 1 2 none none 1 true ∧
    ¬ ([1, 2] : List Nat).length ≤ 1 := by
  rw [find_all_paths_stC9]
  exact ⟨by simp, by decide⟩

/-- The schema row of the C2 scenario: persisted (pk 50), registered string
field type. -/
def sW2 : SchemaRow := ⟨some 50, "T", "t", 1, 0, 21, false, .null⟩

/-- State for C2: the schema is linked by one entity class. -/
def stW2 : State :=
  { classes := [⟨1, 100, "c", [50]⟩], entities := [], attrs := [],
    values := [], schemas := [sW2] }

/-- C2: saving a persisted schema referenced by an entity class does *not*
append a cloned row with a bumped minor version — it raises
`AttributeError`.  `save` redirects to `clone`, whose first statement is
`fields = models.model_to_dict(self, exclude=['id'])` with `models` bound by
`from django.db import models`, which exports no `model_to_dict`; the crash
happens before `get_next_version` and before any row is created, so the
schema table still holds exactly the original row. -/
theorem c2_linked_schema_save_crashes :
    SchemaModel.save stW2 sW2 = (stW2, some Err.attributeError) ∧
    (SchemaModel.save stW2 sW2).1.schemas = [sW2] := by
  exact ⟨rfl, rfl⟩

/-- Graph for the C3 witness: one live link 1→2. -/
def stW3 : State :=
  { classes := [], entities := [],
    attrs := [⟨10, 1, "L", "l", 50, false, true, some 2, false, false⟩],
    values := [], schemas := [] }

/-- Witness for C3 (amended) at a concrete graph where the search succeeds. -/
theorem c3_connected_sound_witness : HasPathLe (relEdge stW3) 1 2 1 :=
  c3_connected_sound stW3 1 2 1 (by
    simp +decide [EntityModel.is_connected_to, EntityModel.is_connected_to_aux,
      EntityModel.successors, sortByTitle, insertByTitle, stW3, destNodes])

/-- Witness for C8 (amended) at a concrete bulk write with one past entry. -/
theorem c8_timeseries_bulk_witness :
    AttributeModel.set_value stC8 attrC8 (.arr [.arr [.str "x", .num 50]]) 100 =
      ({ stC8 with values := stC8.values ++ (AttributeModel.mkBulkRows
          (freshValuePk stC8.values) attrC8 (AttributeModel.schemaDefault stC8 attrC8)
          (AttributeModel.bulkKept [(.str "x", some 50)] 100)) }, none) :=
  c8_timeseries_bulk.1 stC8 attrC8 [.arr [.str "x", .num 50]] [(.str "x", some 50)] 100
    rfl rfl (by simp [AttributeModel.bulkKept])

/-- Witness for C9 (amended) at the concrete search of `stC9`. -/
theorem c9_all_paths_bounded_nodup_witness :
    ([1, 2] : List Nat).length ≤ 1 + 1 ∧ ([1, 2] : List Nat).Nodup :=
  c9_all_paths_bounded_nodup stC9 1 2 none none 1 [1, 2]
    (by rw [find_all_paths_stC9]; simp)
